import Mathlib

/-!
# Verification of the analytics processor

A shallow embedding in Lean 4 of `scripts/analytics-processor.py` from the
`and3rn3t/minecraft` repository, together with proofs and refutations of the
frozen specification claims about it.

Numbers are modelled by `ℚ` (the Python code computes with IEEE floats; all
claims under study are about exact arithmetic relations, orderings and
branch selection, for which the rational model is the faithful idealisation).
Python's `round(x, ndigits)` performs round-half-to-even; we model it exactly
on `ℚ`.
-/

namespace Analytics

/-- Python's `round` to an integer: round half to even (banker's rounding). -/
def roundHalfEven (q : ℚ) : ℤ :=
  if q - ⌊q⌋ < 1/2 then ⌊q⌋
  else if 1/2 < q - ⌊q⌋ then ⌊q⌋ + 1
  else if ⌊q⌋ % 2 = 0 then ⌊q⌋ else ⌊q⌋ + 1

/-- `round(x, 2)` from Python, on rationals. -/
def round2 (q : ℚ) : ℚ := (roundHalfEven (q * 100) : ℚ) / 100

/-- `round(x, 1)` from Python, on rationals. -/
def round1 (q : ℚ) : ℚ := (roundHalfEven (q * 10) : ℚ) / 10

/-- A sample record, one line of a JSONL stream:
`{"timestamp": ..., "datetime": ..., "data": {...}}`.
`timestamp` is `none` when the key is absent (`record.get("timestamp", 0)`
then yields `0`).  The `data` payload of a performance-class stream is a
mapping from metric names to numbers, modelled as an association list. -/
structure Record where
  timestamp : Option ℚ
  datetime : String
  data : List (String × ℚ)
deriving DecidableEq, Repr

/-- `record.get("timestamp", 0)`. -/
def Record.tsOrZero (r : Record) : ℚ := r.timestamp.getD 0

/-- `float(record.get("data", {}).get(value_key, 0))`. -/
def Record.getVal (r : Record) (key : String) : ℚ :=
  (r.data.lookup key).getD 0

/-- `[float(record.get("data", {}).get(value_key, 0)) for record in data]`. -/
def extractValues (data : List Record) (key : String) : List ℚ :=
  data.map (fun r => r.getVal key)

/-- Python `min(values)` over a nonempty list (left fold keeping the least
element); `0` on `[]`, where the original would raise — never reached by the
embedded callers. -/
def listMin : List ℚ → ℚ
  | [] => 0
  | a :: t => t.foldl min a

/-- Python `max(values)` over a nonempty list; `0` on `[]` (unreached). -/
def listMax : List ℚ → ℚ
  | [] => 0
  | a :: t => t.foldl max a

/-- `statistics.mean(values)`. -/
def mean (values : List ℚ) : ℚ := values.sum / values.length

/-- The ordinary least-squares slope of `values` against indices `0..n-1`,
exactly as computed by `calculate_trends`:
`x_mean = sum(x)/n`, `y_mean = sum(values)/n`,
`numerator = Σ (x[i]-x_mean)*(values[i]-y_mean)`,
`denominator = Σ (x[i]-x_mean)**2`, with `slope = 0` when the denominator
is zero. -/
def olsSlope (values : List ℚ) : ℚ :=
  let n := values.length
  let xMean : ℚ := ((List.range n).map (fun (i : ℕ) => (i : ℚ))).sum / n
  let yMean : ℚ := values.sum / n
  let numer :=
    ((List.range n).map (fun (i : ℕ) => ((i : ℚ) - xMean) * (values.getD i 0 - yMean))).sum
  let denom := ((List.range n).map (fun (i : ℕ) => ((i : ℚ) - xMean) ^ 2)).sum
  if denom = 0 then 0 else numer / denom

/-- The unrounded percentage change of `calculate_trends`:
`((values[-1] - values[0]) / values[0]) * 100` when `values[0] != 0`, else 0. -/
def rawChangePercent (values : List ℚ) : ℚ :=
  if values.getD 0 0 ≠ 0 then
    ((values.getD (values.length - 1) 0 - values.getD 0 0) / values.getD 0 0) * 100
  else 0

/-- The `current/average/min/max` block of a trend result.  The Python
function returns a dict; these four keys are present in the 1-record branch
and in the main (≥2 records, not-all-zero) branch, and absent otherwise, so
the result type carries them as an `Option`. -/
structure TrendStats where
  current : ℚ
  average : ℚ
  min : ℚ
  max : ℚ
deriving DecidableEq, Repr

/-- Result of `calculate_trends`.  `stats = none` models the bare
`{"direction": ..., "slope": ..., "change_percent": ...}` dict. -/
structure TrendResult where
  direction : String
  slope : ℚ
  changePercent : ℚ
  stats : Option TrendStats
deriving DecidableEq, Repr

/-- `AnalyticsProcessor.calculate_trends`, translated line by line. -/
def calculate_trends (data : List Record) (key : String) : TrendResult :=
  if data.length < 2 then
    if data.length = 1 then
      let value := (data.getD 0 ⟨none, "", []⟩).getVal key
      ⟨"stable", 0, 0, some ⟨value, value, value, value⟩⟩
    else
      ⟨"stable", 0, 0, none⟩
  else
    let values := extractValues data key
    if values = [] ∨ ∀ v ∈ values, v = 0 then
      ⟨"stable", 0, 0, none⟩
    else
      let slope := olsSlope values
      let changePercent := rawChangePercent values
      let direction :=
        if 0.01 < slope then "increasing"
        else if slope < -0.01 then "decreasing" else "stable"
      ⟨direction, slope, round2 changePercent,
        some ⟨values.getD (values.length - 1) 0, round2 (mean values),
          round2 (listMin values), round2 (listMax values)⟩⟩

/-- One anomaly record produced by `detect_anomalies`.  The Python record
carries `z_score` (rounded to 2 decimals); a Z-score is a real square root,
so the embedding carries its exact square `zSq` instead — for the nonneg
quantities involved, `z > t ↔ t < 0 ∨ t² < z²` and `z > 3 ↔ 9 < z²`, which
is all the code ever does with it. -/
structure Anomaly where
  timestamp : Option ℚ
  datetime : String
  value : ℚ
  zSq : ℚ
  severity : String
deriving DecidableEq, Repr

/-- `AnalyticsProcessor.detect_anomalies`.  `statistics.stdev` is the sample
standard deviation `sqrt (Σ (v - mean)² / (n-1))`; it is zero exactly when
the sample variance `sampleVar` below is zero, and the Z-score comparison
`|v - mean| / stdev > threshold` is equivalent, for `threshold ≥ 0`, to
`(v - mean)² / sampleVar > threshold²` (for `threshold < 0` it always
holds, the Z-score being nonnegative).  The embedding stays in `ℚ` through
these squares. -/
def detect_anomalies (data : List Record) (key : String) (threshold : ℚ) :
    List Anomaly :=
  if data.length < 3 then []
  else
    let values := extractValues data key
    if values = [] then []
    else
      let m := mean values
      let sampleVar : ℚ :=
        if 1 < values.length then
          (values.map (fun v => (v - m) ^ 2)).sum / ((values.length : ℚ) - 1)
        else 0
      if sampleVar = 0 then []
      else
        (data.zip values).filterMap (fun rv =>
          let zSq := (rv.2 - m) ^ 2 / sampleVar
          if threshold < 0 ∨ threshold ^ 2 < zSq then
            some ⟨rv.1.timestamp, rv.1.datetime, rv.2, zSq,
              if 9 < zSq then "high" else "medium"⟩
          else none)

/-- Result of `predict_future`.  `trend` is `none` in the early
`{"predicted": 0, "confidence": 0}` return, which has no `trend` key. -/
structure PredictionResult where
  predicted : ℚ
  confidence : ℚ
  trend : Option ℚ
deriving DecidableEq, Repr

/-- `AnalyticsProcessor.predict_future`, translated line by line.  The
`else` branch `predicted = avg` of the source is unreachable (the function
returned already when `len(data) < 2`) but is embedded all the same. -/
def predict_future (data : List Record) (key : String) (hoursAhead : ℚ) :
    PredictionResult :=
  if data.length < 2 then ⟨0, 0, none⟩
  else
    let values := extractValues data key
    if values = [] then ⟨0, 0, none⟩
    else
      let recentValues := values.drop (values.length - min 10 values.length)
      let avg := mean recentValues
      let trendPerPoint : ℚ :=
        if 2 ≤ values.length then
          if 1 < values.length then
            (values.getD (values.length - 1) 0 - values.getD 0 0) /
              ((values.length : ℚ) - 1)
          else 0
        else 0
      let predicted : ℚ :=
        if 2 ≤ values.length then
          values.getD (values.length - 1) 0 + trendPerPoint * hoursAhead
        else avg
      let confidence : ℚ := min 100 (max 0 ((data.length : ℚ) / 100 * 100))
      ⟨round2 predicted, round1 confidence, some (round2 trendPerPoint)⟩

/-- The outcome of trying to read the stream file, the environment input to
`load_analytics_data`:
* `missing`: `file_path.exists()` is false;
* `vanished`: the file existed at the check but `open` raised
  `FileNotFoundError` (the one exception class the code catches);
* `readError`: `open` or the iteration raised some other `OSError`
  (permission denied, I/O error, ...), carried as a message;
* `content`: the file was read; each non-blank line either parsed as JSON
  to a record (`some r`) or failed to parse (`none`). -/
inductive StreamRead where
  | missing
  | vanished
  | readError (msg : String)
  | content (lines : List (Option Record))
deriving DecidableEq, Repr

/-- The sort key relation of `sorted(data, key=lambda x: x.get("timestamp", 0))`. -/
def tsLE (a b : Record) : Prop := a.tsOrZero ≤ b.tsOrZero

instance : DecidableRel tsLE := fun a b => inferInstanceAs (Decidable (a.tsOrZero ≤ b.tsOrZero))

instance : IsTotal Record tsLE := ⟨fun a b => le_total a.tsOrZero b.tsOrZero⟩

instance : IsTrans Record tsLE := ⟨fun _ _ _ => le_trans⟩

/-- `sorted(data, key=lambda x: x.get("timestamp", 0))` — a stable sort
ascending by the timestamp key. -/
def sortByTs (data : List Record) : List Record := List.insertionSort tsLE data

/-- `record.get("timestamp", 0) >= cutoff_time`. -/
def keepRecord (cutoff : ℚ) (r : Record) : Bool := cutoff ≤ r.tsOrZero

/-- `AnalyticsProcessor.load_analytics_data`.  `now` is
`datetime.now().timestamp()` at call time.  `Except` models exception
propagation: only `FileNotFoundError` is caught (`vanished`); any other
read failure escapes the function. -/
def load_analytics_data (src : StreamRead) (now : ℚ) (hours : ℚ) :
    Except String (List Record) :=
  match src with
  | .missing => .ok []
  | .vanished => .ok []
  | .readError msg => .error msg
  | .content lines =>
      let cutoff := now - hours * 3600
      .ok (sortByTs ((lines.filterMap id).filter (keepRecord cutoff)))

/-- The per-metric block of `analyze_performance_trends`
(`{"trend": ..., "anomalies": ..., ["prediction": ...,] "current": ...,
"average": ...}`); `prediction` is absent for `cpu`. -/
structure MetricReport where
  trend : TrendResult
  anomalies : List Anomaly
  prediction : Option PredictionResult
  current : ℚ
  average : ℚ
deriving DecidableEq, Repr

/-- The value of `analyze_performance_trends` when the loaded data is
nonempty. -/
structure PerfReport where
  tps : MetricReport
  cpu : MetricReport
  memory : MetricReport
deriving DecidableEq, Repr

/-- One metric block, shared shape of the three entries built by
`analyze_performance_trends`. -/
def metricReport (perfData : List Record) (key : String) (threshold : ℚ)
    (withPrediction : Bool) : MetricReport :=
  let values := extractValues perfData key
  { trend := calculate_trends perfData key
    anomalies := detect_anomalies perfData key threshold
    prediction := if withPrediction then some (predict_future perfData key 1) else none
    current := if values ≠ [] then values.getD (values.length - 1) 0 else 0
    average := if values ≠ [] then round2 (mean values) else 0 }

/-- `AnalyticsProcessor.analyze_performance_trends`, applied to the records
loaded from the `"performance"` stream.  Returns `none` for the empty `{}`
returned on no data. -/
def analyze_performance_trends (perfData : List Record) : Option PerfReport :=
  if perfData = [] then none
  else some
    { tps := metricReport perfData "tps" 1.4 true
      cpu := metricReport perfData "cpu" 1.5 false
      memory := metricReport perfData "memory" 1.5 true }

/-- The `summary` block of a report. -/
structure Summary where
  status : String
  warnings : List String
  recommendations : List String
deriving DecidableEq, Repr

/-- `perf.get("tps", {}).get("current", 20)`. -/
def tpsCurrentOf (perf : Option PerfReport) : ℚ :=
  match perf with | none => 20 | some p => p.tps.current

/-- `perf.get("memory", {}).get("current", 0)`. -/
def memCurrentOf (perf : Option PerfReport) : ℚ :=
  match perf with | none => 0 | some p => p.memory.current

/-- `perf.get("tps", {}).get("anomalies", [])`. -/
def tpsAnomaliesOf (perf : Option PerfReport) : List Anomaly :=
  match perf with | none => [] | some p => p.tps.anomalies

/-- `perf.get("tps", {}).get("trend", {}).get("direction")` — `None` when
there is no performance data. -/
def tpsDirectionOf (perf : Option PerfReport) : Option String :=
  match perf with | none => none | some p => some p.tps.trend.direction

/-- `perf.get("memory", {}).get("trend", {}).get("direction")`. -/
def memDirectionOf (perf : Option PerfReport) : Option String :=
  match perf with | none => none | some p => some p.memory.trend.direction

/-- The summary derivation of `AnalyticsProcessor.generate_report`,
translated statement by statement from the code after
`perf = report.get("performance", {})`.  When `perf` is the empty dict
(`none` here), every `.get` falls back to its default: `current` 20 for
tps, 0 for memory, `[]` for anomalies, and the trend-direction lookups
yield `None`, which is neither "decreasing" nor "increasing". -/
def generate_summary (perf : Option PerfReport) : Summary :=
  let s₀ : Summary := ⟨"healthy", [], []⟩
  let s₁ : Summary :=
    if tpsCurrentOf perf < 18 then
      ⟨"warning", s₀.warnings ++ ["Low TPS detected - server may be lagging"], s₀.recommendations⟩
    else s₀
  let s₂ : Summary :=
    if 3000 < memCurrentOf perf then
      ⟨if s₁.status = "healthy" then "warning" else s₁.status,
        s₁.warnings ++ ["High memory usage detected"], s₁.recommendations⟩
    else s₁
  let s₃ : Summary :=
    if 3 < (tpsAnomaliesOf perf).length then
      ⟨"critical",
        s₂.warnings ++ [toString (tpsAnomaliesOf perf).length ++ " TPS anomalies detected"],
        s₂.recommendations⟩
    else s₂
  let s₄ : Summary :=
    if tpsDirectionOf perf = some "decreasing" then
      ⟨s₃.status, s₃.warnings,
        s₃.recommendations ++ ["Consider reducing view distance or max players"]⟩
    else s₃
  if memDirectionOf perf = some "increasing" then
    ⟨s₄.status, s₄.warnings,
      s₄.recommendations ++ ["Monitor memory usage - may need optimization"]⟩
  else s₄

/-- The `performance` and `summary` fields of
`AnalyticsProcessor.generate_report`, as a function of the records the
loader produced for the `"performance"` stream.  (`generated_at` is the
wall clock and `player_behavior` depends on the local time zone via
`datetime.fromtimestamp(...).hour`; neither enters any claim under
study.) -/
def generate_report_core (perfRecords : List Record) :
    Option PerfReport × Summary :=
  let perf := analyze_performance_trends perfRecords
  (perf, generate_summary perf)

/-! ## Auxiliary quantities for the regression analysis

`regNum`/`regDenom` name the numerator and denominator that `olsSlope`
computes; `pairSum` is the classical pair-difference form used to settle
their signs. -/

/-- `sum(x)` for `x = list(range(n))`. -/
def rangeSum (n : ℕ) : ℚ := ∑ i ∈ Finset.range n, (i : ℚ)

/-- `Σ y i` over indices `0..n-1`. -/
def ySum (n : ℕ) (y : ℕ → ℚ) : ℚ := ∑ i ∈ Finset.range n, y i

/-- `Σ i * y i` over indices `0..n-1`. -/
def xySum (n : ℕ) (y : ℕ → ℚ) : ℚ := ∑ i ∈ Finset.range n, (i : ℚ) * y i

/-- The regression numerator `Σ (x_i - x̄)(y_i - ȳ)`. -/
def regNum (n : ℕ) (y : ℕ → ℚ) : ℚ :=
  ∑ i ∈ Finset.range n, ((i : ℚ) - rangeSum n / n) * (y i - ySum n y / n)

/-- The regression denominator `Σ (x_i - x̄)²`. -/
def regDenom (n : ℕ) : ℚ :=
  ∑ i ∈ Finset.range n, ((i : ℚ) - rangeSum n / n) ^ 2

/-- `Σ_{i,j} (j - i)(y j - y i)`, the pair-difference form. -/
def pairSum (n : ℕ) (y : ℕ → ℚ) : ℚ :=
  ∑ p ∈ Finset.range n ×ˢ Finset.range n, ((p.2 : ℚ) - (p.1 : ℚ)) * (y p.2 - y p.1)

theorem range_map_sum_eq (n : ℕ) (f : ℕ → ℚ) :
    ((List.range n).map f).sum = ∑ i ∈ Finset.range n, f i := rfl

theorem list_sum_eq_range_getD (l : List ℚ) :
    l.sum = ∑ i ∈ Finset.range l.length, l.getD i 0 := by
  induction l with
  | nil => simp
  | cons a t ih =>
      rw [List.sum_cons, List.length_cons, Finset.sum_range_succ']
      simp [ih, add_comm]

theorem pairSum_eq (n : ℕ) (y : ℕ → ℚ) :
    pairSum n y = 2 * ((n : ℚ) * xySum n y - rangeSum n * ySum n y) := by
  unfold pairSum xySum rangeSum ySum
  rw [Finset.sum_product]
  have h : ∀ i ∈ Finset.range n,
      (∑ j ∈ Finset.range n, ((j : ℚ) - (i : ℚ)) * (y j - y i))
        = (∑ j ∈ Finset.range n, (j : ℚ) * y j)
          - (∑ j ∈ Finset.range n, (j : ℚ)) * y i
          - (i : ℚ) * (∑ j ∈ Finset.range n, y j) + n * ((i : ℚ) * y i) := by
    intro i _
    have h2 : ∀ j ∈ Finset.range n, ((j : ℚ) - (i : ℚ)) * (y j - y i)
        = (j : ℚ) * y j - (j : ℚ) * y i - (i : ℚ) * y j + (i : ℚ) * y i := by
      intro j _; ring
    rw [Finset.sum_congr rfl h2]
    rw [Finset.sum_add_distrib, Finset.sum_sub_distrib, Finset.sum_sub_distrib,
      ← Finset.sum_mul, ← Finset.mul_sum, Finset.sum_const, Finset.card_range,
      nsmul_eq_mul]
  rw [Finset.sum_congr rfl h]
  rw [Finset.sum_add_distrib, Finset.sum_sub_distrib, Finset.sum_sub_distrib,
    Finset.sum_const, Finset.card_range, nsmul_eq_mul, ← Finset.sum_mul,
    ← Finset.mul_sum, ← Finset.mul_sum]
  ring

theorem regNum_expand (n : ℕ) (y : ℕ → ℚ) (hn : 0 < n) :
    regNum n y = xySum n y - rangeSum n * ySum n y / n := by
  have hn' : ((n : ℚ)) ≠ 0 := Nat.cast_ne_zero.mpr hn.ne'
  unfold regNum xySum rangeSum ySum
  have h : ∀ i ∈ Finset.range n,
      ((i : ℚ) - (∑ j ∈ Finset.range n, (j : ℚ)) / n) * (y i - (∑ j ∈ Finset.range n, y j) / n)
        = (i : ℚ) * y i - ((∑ j ∈ Finset.range n, (j : ℚ)) / n) * y i
          - (i : ℚ) * ((∑ j ∈ Finset.range n, y j) / n)
          + ((∑ j ∈ Finset.range n, (j : ℚ)) / n) * ((∑ j ∈ Finset.range n, y j) / n) := by
    intro i _; ring
  rw [Finset.sum_congr rfl h]
  rw [Finset.sum_add_distrib, Finset.sum_sub_distrib, Finset.sum_sub_distrib,
    ← Finset.mul_sum, ← Finset.sum_mul, Finset.sum_const, Finset.card_range,
    nsmul_eq_mul]
  field_simp
  ring

theorem two_n_regNum (n : ℕ) (y : ℕ → ℚ) (hn : 0 < n) :
    2 * (n : ℚ) * regNum n y = pairSum n y := by
  have hn' : ((n : ℚ)) ≠ 0 := Nat.cast_ne_zero.mpr hn.ne'
  rw [regNum_expand n y hn, pairSum_eq]
  field_simp
  ring

theorem pairSum_pos (n : ℕ) (y : ℕ → ℚ) (h2 : 2 ≤ n)
    (hmono : ∀ i j, i < j → j < n → y i < y j) : 0 < pairSum n y := by
  unfold pairSum
  apply Finset.sum_pos'
  · intro p hp
    rcases lt_trichotomy p.1 p.2 with h | h | h
    · have hx : (0 : ℚ) ≤ (p.2 : ℚ) - (p.1 : ℚ) := by
        have := (Nat.cast_lt (α := ℚ)).mpr h
        linarith
      have hy : (0 : ℚ) ≤ y p.2 - y p.1 := by
        have hp2 : p.2 < n := Finset.mem_range.mp (Finset.mem_product.mp hp).2
        have := hmono p.1 p.2 h hp2
        linarith
      exact mul_nonneg hx hy
    · simp [h]
    · have hx : (p.2 : ℚ) - (p.1 : ℚ) ≤ 0 := by
        have := (Nat.cast_lt (α := ℚ)).mpr h
        linarith
      have hy : y p.2 - y p.1 ≤ 0 := by
        have hp1 : p.1 < n := Finset.mem_range.mp (Finset.mem_product.mp hp).1
        have := hmono p.2 p.1 h hp1
        linarith
      nlinarith [hx, hy]
  · refine ⟨(0, n - 1), ?_, ?_⟩
    · refine Finset.mem_product.mpr ⟨Finset.mem_range.mpr (by omega), Finset.mem_range.mpr (by omega)⟩
    · have h01 : 0 < n - 1 := by omega
      have hx : (0 : ℚ) < ((n - 1 : ℕ) : ℚ) - ((0 : ℕ) : ℚ) := by
        have : (0 : ℚ) < ((n - 1 : ℕ) : ℚ) := by exact_mod_cast h01
        simpa using this
      have hy : (0 : ℚ) < y (n - 1) - y 0 := by
        have := hmono 0 (n - 1) h01 (by omega)
        linarith
      exact mul_pos hx hy

theorem regNum_pos (n : ℕ) (y : ℕ → ℚ) (h2 : 2 ≤ n)
    (hmono : ∀ i j, i < j → j < n → y i < y j) : 0 < regNum n y := by
  have hps := pairSum_pos n y h2 hmono
  have heq := two_n_regNum n y (by omega)
  have hn : (0 : ℚ) < 2 * (n : ℚ) := by
    have : (0 : ℚ) < (n : ℚ) := by exact_mod_cast (by omega : 0 < n)
    linarith
  nlinarith [heq, hps, hn]

theorem regNum_neg_apply (n : ℕ) (y : ℕ → ℚ) :
    regNum n (fun i => -(y i)) = -regNum n y := by
  unfold regNum ySum
  rw [← Finset.sum_neg_distrib]
  refine Finset.sum_congr rfl fun i _ => ?_
  rw [Finset.sum_neg_distrib]
  ring

theorem regNum_neg (n : ℕ) (y : ℕ → ℚ) (h2 : 2 ≤ n)
    (hmono : ∀ i j, i < j → j < n → y j < y i) : regNum n y < 0 := by
  have h := regNum_pos n (fun i => -(y i)) h2 (by
    intro i j hij hj
    have := hmono i j hij hj
    simpa using this)
  rw [regNum_neg_apply] at h
  linarith

theorem rangeSum_pos (n : ℕ) (h2 : 2 ≤ n) : 0 < rangeSum n := by
  unfold rangeSum
  apply Finset.sum_pos'
  · intro i _; exact_mod_cast Nat.zero_le i
  · exact ⟨1, Finset.mem_range.mpr (by omega), by norm_num⟩

theorem regDenom_pos (n : ℕ) (h2 : 2 ≤ n) : 0 < regDenom n := by
  unfold regDenom
  apply Finset.sum_pos'
  · intro i _; exact sq_nonneg _
  · refine ⟨0, Finset.mem_range.mpr (by omega), ?_⟩
    have hs := rangeSum_pos n h2
    have hn : (0 : ℚ) < (n : ℚ) := by exact_mod_cast (by omega : 0 < n)
    have hd : 0 < rangeSum n / n := div_pos hs hn
    have he : (((0 : ℕ) : ℚ) - rangeSum n / n) ^ 2 = (rangeSum n / n) ^ 2 := by
      rw [Nat.cast_zero, zero_sub, neg_sq]
    rw [he]
    exact pow_pos hd 2

/-- `olsSlope` in terms of the named regression quantities. -/
theorem olsSlope_eq (v : List ℚ) :
    olsSlope v =
      if regDenom v.length = 0 then 0
      else regNum v.length (fun i => v.getD i 0) / regDenom v.length := by
  unfold olsSlope regNum regDenom rangeSum ySum
  simp only [range_map_sum_eq]
  rw [list_sum_eq_range_getD]

theorem olsSlope_pos (v : List ℚ) (h2 : 2 ≤ v.length)
    (hmono : ∀ i j, i < j → j < v.length → v.getD i 0 < v.getD j 0) :
    0 < olsSlope v := by
  rw [olsSlope_eq, if_neg (ne_of_gt (regDenom_pos v.length h2))]
  exact div_pos (regNum_pos v.length _ h2 hmono) (regDenom_pos v.length h2)

theorem olsSlope_neg (v : List ℚ) (h2 : 2 ≤ v.length)
    (hmono : ∀ i j, i < j → j < v.length → v.getD j 0 < v.getD i 0) :
    olsSlope v < 0 := by
  rw [olsSlope_eq, if_neg (ne_of_gt (regDenom_pos v.length h2))]
  exact div_neg_of_neg_of_pos (regNum_neg v.length _ h2 hmono) (regDenom_pos v.length h2)

/-! ## Bridging lemmas -/

theorem extractValues_length (data : List Record) (key : String) :
    (extractValues data key).length = data.length := by
  simp [extractValues]

theorem sorted_lt_getD (v : List ℚ) (h : v.Sorted (· < ·)) :
    ∀ i j, i < j → j < v.length → v.getD i 0 < v.getD j 0 := by
  intro i j hij hj
  have hi : i < v.length := lt_trans hij hj
  rw [List.getD_eq_getElem v 0 hi, List.getD_eq_getElem v 0 hj]
  exact List.pairwise_iff_get.mp h ⟨i, hi⟩ ⟨j, hj⟩ hij

theorem sorted_gt_getD (v : List ℚ) (h : v.Sorted (· > ·)) :
    ∀ i j, i < j → j < v.length → v.getD j 0 < v.getD i 0 := by
  intro i j hij hj
  have hi : i < v.length := lt_trans hij hj
  rw [List.getD_eq_getElem v 0 hi, List.getD_eq_getElem v 0 hj]
  exact List.pairwise_iff_get.mp h ⟨i, hi⟩ ⟨j, hj⟩ hij

theorem getD_mem (v : List ℚ) (i : ℕ) (hi : i < v.length) : v.getD i 0 ∈ v := by
  rw [List.getD_eq_getElem v 0 hi]
  exact List.getElem_mem hi

theorem roundHalfEven_nonneg (q : ℚ) (h : 0 ≤ q) : 0 ≤ roundHalfEven q := by
  unfold roundHalfEven
  have hf : (0 : ℤ) ≤ ⌊q⌋ := Int.floor_nonneg.mpr h
  split_ifs <;> omega

theorem roundHalfEven_nonpos (q : ℚ) (h : q ≤ 0) : roundHalfEven q ≤ 0 := by
  unfold roundHalfEven
  have hf : (⌊q⌋ : ℚ) ≤ q := Int.floor_le q
  split_ifs with h1 h2 h3
  · exact Int.floor_nonpos h
  · -- `1/2 < q - ⌊q⌋` together with `q ≤ 0` forces `⌊q⌋ ≤ -1`
    have hlt : (⌊q⌋ : ℚ) < -(1/2) := by
      push_neg at h1
      linarith
    have : ⌊q⌋ < 0 := by
      have hq : (⌊q⌋ : ℚ) < 0 := lt_trans hlt (by norm_num)
      exact_mod_cast hq
    omega
  · exact Int.floor_nonpos h
  · have hle : (⌊q⌋ : ℚ) ≤ -(1/2) := by
      push_neg at h1
      linarith
    have : ⌊q⌋ < 0 := by
      have hq : (⌊q⌋ : ℚ) < 0 := lt_of_le_of_lt hle (by norm_num)
      exact_mod_cast hq
    omega

theorem roundHalfEven_intCast (m : ℤ) : roundHalfEven (m : ℚ) = m := by
  unfold roundHalfEven
  rw [Int.floor_intCast]
  rw [if_pos (by norm_num)]

theorem round2_nonneg (q : ℚ) (h : 0 ≤ q) : 0 ≤ round2 q := by
  unfold round2
  have := roundHalfEven_nonneg (q * 100) (by positivity)
  positivity

theorem round2_nonpos (q : ℚ) (h : q ≤ 0) : round2 q ≤ 0 := by
  unfold round2
  have h1 : roundHalfEven (q * 100) ≤ 0 := roundHalfEven_nonpos _ (by nlinarith)
  have h2 : ((roundHalfEven (q * 100) : ℤ) : ℚ) ≤ 0 := by exact_mod_cast h1
  linarith [div_nonpos_of_nonpos_of_nonneg h2 (by norm_num : (0:ℚ) ≤ 100)]

theorem round1_natCast (m : ℕ) : round1 (m : ℚ) = m := by
  unfold round1
  have h : (m : ℚ) * 10 = (((m * 10 : ℕ) : ℤ) : ℚ) := by push_cast; ring
  rw [h, roundHalfEven_intCast]
  push_cast
  field_simp

/-- Reduction of `calculate_trends` on inputs that reach the regression
branch: at least two records, extracted values not all zero. -/
theorem calculate_trends_main (data : List Record) (key : String)
    (h2 : 2 ≤ data.length)
    (hnz : ¬ ∀ v ∈ extractValues data key, v = 0) :
    calculate_trends data key =
      ⟨if 0.01 < olsSlope (extractValues data key) then "increasing"
        else if olsSlope (extractValues data key) < -0.01 then "decreasing"
        else "stable",
       olsSlope (extractValues data key),
       round2 (rawChangePercent (extractValues data key)),
       some ⟨(extractValues data key).getD ((extractValues data key).length - 1) 0,
         round2 (mean (extractValues data key)),
         round2 (listMin (extractValues data key)),
         round2 (listMax (extractValues data key))⟩⟩ := by
  unfold calculate_trends
  rw [if_neg (by omega)]
  rw [if_neg (not_or.mpr ⟨by
    intro he
    have := extractValues_length data key
    rw [he] at this
    simp at this
    omega, hnz⟩)]

/-- Reduction of `calculate_trends` on ≥2 records whose extracted values
are all zero. -/
theorem calculate_trends_allzero (data : List Record) (key : String)
    (h2 : 2 ≤ data.length)
    (hz : ∀ v ∈ extractValues data key, v = 0) :
    calculate_trends data key = ⟨"stable", 0, 0, none⟩ := by
  unfold calculate_trends
  rw [if_neg (by omega)]
  rw [if_pos (Or.inr hz)]

/-! ## Claims -/

/-- C10: when the "performance" stream yields zero records for the
requested window, `generate_report` returns `performance` as an empty map
(`none`) and a summary of exactly
`{status: "healthy", warnings: [], recommendations: []}`. -/
theorem report_empty_performance_healthy :
    generate_report_core [] = (none, ⟨"healthy", [], []⟩) := by
  simp [generate_report_core, analyze_performance_trends, generate_summary,
    tpsCurrentOf, memCurrentOf, tpsAnomaliesOf, tpsDirectionOf, memDirectionOf]
  norm_num

/-- C3 counterexample: a stream source that exists but is unreadable (a
`PermissionError` raised while opening/reading) makes
`load_analytics_data` propagate the exception instead of returning the
empty sequence — only `FileNotFoundError` is caught. -/
theorem load_unreadable_propagates :
    load_analytics_data (.readError "PermissionError") 1000000 24
        = .error "PermissionError" ∧
      ∀ l : List Record,
        load_analytics_data (.readError "PermissionError") 1000000 24 ≠ .ok l := by
  exact ⟨rfl, fun l h => by simp [load_analytics_data] at h⟩

/-- C3 amended: a missing stream source — whether it fails the existence
check or raises `FileNotFoundError` at `open` — yields the empty sequence
without an exception; any other read failure (I/O error, permission)
propagates as an error. -/
theorem load_missing_source_empty (now hours : ℚ) (msg : String) :
    load_analytics_data .missing now hours = .ok [] ∧
      load_analytics_data .vanished now hours = .ok [] ∧
      load_analytics_data (.readError msg) now hours = .error msg :=
  ⟨rfl, rfl, rfl⟩

/-- C6: `load_analytics_data` retains exactly the parsed records whose
timestamp (0 when absent) is at least `now - hours*3600` and returns them
sorted ascending by timestamp; in particular a stream with records at
`now-25h` and `now-1h` loaded with `hours = 24` yields exactly the
`now-1h` record. -/
theorem load_window_filter_sorted (lines : List (Option Record)) (now hours : ℚ) :
    (∃ out, load_analytics_data (.content lines) now hours = .ok out ∧
        out.Sorted tsLE ∧
        out.Perm ((lines.filterMap id).filter (keepRecord (now - hours * 3600)))) ∧
      ∀ dt₁ dt₂ p₁ p₂,
        load_analytics_data
            (.content [some ⟨some (now - 25 * 3600), dt₁, p₁⟩,
              some ⟨some (now - 3600), dt₂, p₂⟩]) now 24
          = .ok [⟨some (now - 3600), dt₂, p₂⟩] := by
  constructor
  · refine ⟨_, rfl, ?_, ?_⟩
    · exact List.sorted_insertionSort tsLE _
    · exact List.perm_insertionSort tsLE _
  · intro dt₁ dt₂ p₁ p₂
    have h₁ : keepRecord (now - 24 * 3600) ⟨some (now - 25 * 3600), dt₁, p₁⟩ = false := by
      simp [keepRecord, Record.tsOrZero]
      linarith
    have h₂ : keepRecord (now - 24 * 3600) ⟨some (now - 3600), dt₂, p₂⟩ = true := by
      simp [keepRecord, Record.tsOrZero]
      linarith
    simp [load_analytics_data, List.filterMap, List.filter, h₁, h₂, sortByTs]

/-- C2 counterexample: for a single record whose extracted value is zero,
`calculate_trends` does *not* return exactly the three-key dict — the
single-record branch runs first and additionally returns
`current = average = min = max = 0`. -/
theorem trend_single_zero_has_stats :
    calculate_trends [⟨some 0, "t", [("tps", 0)]⟩] "tps"
        = ⟨"stable", 0, 0, some ⟨0, 0, 0, 0⟩⟩ ∧
      (⟨"stable", 0, 0, some ⟨0, 0, 0, 0⟩⟩ : TrendResult) ≠ ⟨"stable", 0, 0, none⟩ := by
  constructor
  · simp [calculate_trends, Record.getVal]
  · simp

/-- C2 amended: on an all-zero record list, `calculate_trends` returns
exactly `{direction: "stable", slope: 0, change_percent: 0}` for every
length other than one (zero records, or two or more); for exactly one
all-zero record it returns the same trio together with
`current = average = min = max = 0`. -/
theorem trend_allzero_amended (data : List Record) (key : String)
    (hz : ∀ v ∈ extractValues data key, v = 0) :
    (data.length ≠ 1 → calculate_trends data key = ⟨"stable", 0, 0, none⟩) ∧
      (data.length = 1 →
        calculate_trends data key = ⟨"stable", 0, 0, some ⟨0, 0, 0, 0⟩⟩) := by
  constructor
  · intro h1
    rcases Nat.lt_or_ge data.length 2 with h | h
    · have h0 : data.length = 0 := by omega
      have he : data = [] := List.length_eq_zero.mp h0
      subst he
      simp [calculate_trends]
    · exact calculate_trends_allzero data key h hz
  · intro h1
    match data, h1 with
    | [a], _ =>
      have ha : a.getVal key = 0 := hz _ (by simp [extractValues])
      simp [calculate_trends, ha]

/-- C2 witness. -/
theorem trend_allzero_amended_wit :
    calculate_trends [⟨some 0, "", [("v", 0)]⟩, ⟨some 1, "", [("v", 0)]⟩] "v"
        = ⟨"stable", 0, 0, none⟩ ∧
      calculate_trends [⟨some 0, "", [("v", 0)]⟩] "v"
        = ⟨"stable", 0, 0, some ⟨0, 0, 0, 0⟩⟩ :=
  ⟨(trend_allzero_amended [⟨some 0, "", [("v", 0)]⟩, ⟨some 1, "", [("v", 0)]⟩] "v"
      (by simp [extractValues, Record.getVal])).1 (by simp),
    (trend_allzero_amended [⟨some 0, "", [("v", 0)]⟩] "v"
      (by simp [extractValues, Record.getVal])).2 (by simp)⟩

/-- C7: `detect_anomalies` returns the empty list on fewer than three
records, and on any list of three or more records whose extracted values
are all identical (zero sample standard deviation). -/
theorem anomalies_floor_and_zero_variance :
    (∀ (data : List Record) (key : String) (t : ℚ), data.length < 3 →
        detect_anomalies data key t = []) ∧
      (∀ (data : List Record) (key : String) (t c : ℚ), 3 ≤ data.length →
        (∀ v ∈ extractValues data key, v = c) →
        detect_anomalies data key t = []) := by
  constructor
  · intro data key t h
    unfold detect_anomalies
    rw [if_pos h]
  · intro data key t c h3 hc
    have hlen : (extractValues data key).length = data.length :=
      extractValues_length data key
    have hne : extractValues data key ≠ [] := by
      intro he
      rw [he] at hlen
      simp at hlen
      omega
    have hn : ((extractValues data key).length : ℚ) ≠ 0 := by
      rw [hlen]
      exact_mod_cast (by omega : data.length ≠ 0)
    have hm : mean (extractValues data key) = c := by
      unfold mean
      rw [List.sum_eq_card_nsmul _ c hc, nsmul_eq_mul]
      field_simp
    have hsum : ((extractValues data key).map
        (fun v => (v - mean (extractValues data key)) ^ 2)).sum = 0 := by
      apply List.sum_eq_zero
      intro x hx
      rcases List.mem_map.mp hx with ⟨v, hv, rfl⟩
      rw [hm, hc v hv]
      ring
    unfold detect_anomalies
    rw [if_neg (by omega), if_neg hne, if_pos]
    rw [hsum]
    split_ifs <;> simp

/-- C7 witness. -/
theorem anomalies_floor_and_zero_variance_wit :
    detect_anomalies [⟨some 0, "", [("v", 7)]⟩, ⟨some 1, "", [("v", 9)]⟩] "v" 2 = [] ∧
      detect_anomalies
        [⟨some 0, "", [("v", 5)]⟩, ⟨some 1, "", [("v", 5)]⟩, ⟨some 2, "", [("v", 5)]⟩]
        "v" 2 = [] :=
  ⟨anomalies_floor_and_zero_variance.1 _ "v" 2 (by simp),
    anomalies_floor_and_zero_variance.2 _ "v" 2 5 (by simp)
      (by simp [extractValues, Record.getVal])⟩

/-- C8 counterexample: for a single record, `calculate_trends` returns
`current = average = min = max` equal to the raw value with *no* rounding;
with value `1.234` the returned average differs from its 2-decimal
rounding. -/
theorem trend_single_stats_unrounded :
    (calculate_trends [⟨some 0, "", [("v", 1234/1000)]⟩] "v").stats
        = some ⟨1234/1000, 1234/1000, 1234/1000, 1234/1000⟩ ∧
      round2 (1234/1000) ≠ (1234/1000 : ℚ) := by
  constructor
  · simp [calculate_trends, Record.getVal]
  · have h : roundHalfEven (1234/1000 * 100) = 123 := by
      unfold roundHalfEven
      rw [show ⌊(1234/1000 * 100 : ℚ)⌋ = 123 by norm_num, if_pos (by norm_num)]
    unfold round2
    rw [h]
    norm_num

/-- C8 amended: for two or more records with not-all-zero extracted
values, `calculate_trends` returns `average`, `min` and `max` rounded to 2
decimals and `current` equal to the last extracted value unrounded; for
exactly one record all four statistics equal that record's raw value,
unrounded; for two or more all-zero records no statistics fields are
returned at all. -/
theorem trend_stats_rounding (data : List Record) (key : String) :
    (2 ≤ data.length → ¬(∀ v ∈ extractValues data key, v = 0) →
      (calculate_trends data key).stats =
        some ⟨(extractValues data key).getD ((extractValues data key).length - 1) 0,
          round2 (mean (extractValues data key)),
          round2 (listMin (extractValues data key)),
          round2 (listMax (extractValues data key))⟩) ∧
      (∀ a : Record, data = [a] →
        (calculate_trends data key).stats
          = some ⟨a.getVal key, a.getVal key, a.getVal key, a.getVal key⟩) ∧
      (2 ≤ data.length → (∀ v ∈ extractValues data key, v = 0) →
        (calculate_trends data key).stats = none) := by
  refine ⟨?_, ?_, ?_⟩
  · intro h2 hnz
    rw [calculate_trends_main data key h2 hnz]
  · rintro a rfl
    simp [calculate_trends]
  · intro h2 hz
    rw [calculate_trends_allzero data key h2 hz]

/-- C8 witness. -/
theorem trend_stats_rounding_wit :
    (calculate_trends [⟨some 0, "", [("v", 1)]⟩, ⟨some 1, "", [("v", 3)]⟩] "v").stats
      = some ⟨3, 2, 1, 3⟩ := by
  have h := (trend_stats_rounding
    [⟨some 0, "", [("v", 1)]⟩, ⟨some 1, "", [("v", 3)]⟩] "v").1 (by simp)
    (by
      intro hall
      have := hall 1 (by simp [extractValues, Record.getVal])
      norm_num at this)
  rw [h]
  have he : extractValues [⟨some 0, "", [("v", 1)]⟩, ⟨some 1, "", [("v", 3)]⟩] "v"
      = [1, 3] := by simp [extractValues, Record.getVal]
  rw [he]
  have h2 : round2 (mean [1, 3]) = 2 := by
    unfold mean round2
    rw [show (([1, 3] : List ℚ).sum / ([1, 3] : List ℚ).length) * 100 = ((200 : ℤ) : ℚ) by
      norm_num, roundHalfEven_intCast]
    norm_num
  have hmin : round2 (listMin [1, 3]) = 1 := by
    unfold listMin round2
    rw [show ((([3] : List ℚ).foldl min 1) * 100) = ((100 : ℤ) : ℚ) by norm_num,
      roundHalfEven_intCast]
    norm_num
  have hmax : round2 (listMax [1, 3]) = 3 := by
    unfold listMax round2
    rw [show ((([3] : List ℚ).foldl max 1) * 100) = ((300 : ℤ) : ℚ) by norm_num,
      roundHalfEven_intCast]
    norm_num
  rw [h2, hmin, hmax]
  norm_num

/-- The confidence computed by `predict_future`, in closed form. -/
theorem predict_confidence_eq (data : List Record) (key : String) (h : ℚ) :
    (predict_future data key h).confidence
      = if data.length < 2 then 0 else ((min 100 data.length : ℕ) : ℚ) := by
  by_cases hl : data.length < 2
  · rw [if_pos hl]
    unfold predict_future
    rw [if_pos hl]
  · rw [if_neg hl]
    unfold predict_future
    rw [if_neg hl]
    have hne : extractValues data key ≠ [] := by
      intro he
      have := extractValues_length data key
      rw [he] at this
      simp at this
      omega
    rw [if_neg hne]
    show round1 (min 100 (max 0 ((data.length : ℚ) / 100 * 100))) = _
    have h1 : ((data.length : ℚ) / 100 * 100) = (data.length : ℚ) := by field_simp
    rw [h1, max_eq_right (Nat.cast_nonneg _),
      show (100 : ℚ) = ((100 : ℕ) : ℚ) by norm_num, ← Nat.cast_min, round1_natCast]

/-- C5 counterexample: for exactly one record the early return makes the
confidence 0, while `min(100, max(0, (n/100)*100))` rounded to 1 decimal
is 1 at `n = 1`. -/
theorem predict_confidence_single_sample :
    (predict_future [⟨some 0, "", [("v", 5)]⟩] "v" 1).confidence = 0 ∧
      round1 (min 100 (max 0
        ((([⟨some 0, "", [("v", 5)]⟩] : List Record).length : ℚ) / 100 * 100))) = 1 := by
  constructor
  · rw [predict_confidence_eq]
    simp
  · have hlen : (([⟨some 0, "", [("v", 5)]⟩] : List Record).length : ℚ) = 1 := by simp
    rw [hlen, show min (100:ℚ) (max 0 ((1:ℚ) / 100 * 100)) = ((1 : ℕ) : ℚ) by norm_num,
      round1_natCast]
    norm_num

/-- C5 amended: for two or more records, `predict_future`'s confidence is
`min(100, max(0, (n/100)*100))` rounded to 1 decimal where `n` is the
record count; for fewer than two records it is 0 (not the formula's value);
it equals 100 for `n ≥ 100`, equals 10 for `n = 10`, and never decreases
when records are added. -/
theorem predict_confidence_amended (data : List Record) (key : String) (h : ℚ) :
    (2 ≤ data.length →
      (predict_future data key h).confidence
        = round1 (min 100 (max 0 ((data.length : ℚ) / 100 * 100)))) ∧
      (data.length < 2 → (predict_future data key h).confidence = 0) ∧
      (100 ≤ data.length → (predict_future data key h).confidence = 100) ∧
      (data.length = 10 → (predict_future data key h).confidence = 10) ∧
      (∀ (data' : List Record) (key' : String) (h' : ℚ),
        data.length ≤ data'.length →
        (predict_future data key h).confidence
          ≤ (predict_future data' key' h').confidence) := by
  refine ⟨?_, ?_, ?_, ?_, ?_⟩
  · intro h2
    rw [predict_confidence_eq, if_neg (by omega)]
    have h1 : ((data.length : ℚ) / 100 * 100) = (data.length : ℚ) := by field_simp
    rw [h1, max_eq_right (Nat.cast_nonneg _),
      show (100 : ℚ) = ((100 : ℕ) : ℚ) by norm_num, ← Nat.cast_min, round1_natCast]
  · intro h2
    rw [predict_confidence_eq, if_pos h2]
  · intro h100
    rw [predict_confidence_eq, if_neg (by omega)]
    rw [min_eq_left h100]
    norm_num
  · intro h10
    rw [predict_confidence_eq, if_neg (by omega), h10]
    norm_num
  · intro data' key' h' hle
    rw [predict_confidence_eq, predict_confidence_eq]
    by_cases hl : data.length < 2
    · rw [if_pos hl]
      split_ifs with hl'
      · exact le_refl _
      · exact Nat.cast_nonneg _
    · rw [if_neg hl, if_neg (by omega)]
      exact_mod_cast min_le_min (le_refl 100) hle

/-- C5 witness. -/
theorem predict_confidence_amended_wit :
    (predict_future (List.replicate 10 (⟨some 0, "", []⟩ : Record)) "v" 1).confidence
        = 10 ∧
      (predict_future ([] : List Record) "v" 1).confidence = 0 :=
  ⟨(predict_confidence_amended (List.replicate 10 ⟨some 0, "", []⟩) "v" 1).2.2.2.1
      (by simp),
    (predict_confidence_amended [] "v" 1).2.1 (by simp)⟩

/-- C9: a record with no "timestamp" field is treated by
`load_analytics_data` as having timestamp 0: it is excluded whenever the
cutoff `now - hours*3600` is positive, and when retained it appears in the
output before every record with a positive timestamp. -/
theorem load_no_timestamp (lines : List (Option Record)) (now hours : ℚ)
    (out : List Record)
    (hout : load_analytics_data (.content lines) now hours = .ok out) :
    (0 < now - hours * 3600 → ∀ r : Record, r.timestamp = none → r ∉ out) ∧
      (∀ i j : Fin out.length, (out.get i).timestamp = none →
        0 < (out.get j).tsOrZero → (i : ℕ) < (j : ℕ)) := by
  have hdef : out
      = sortByTs ((lines.filterMap id).filter (keepRecord (now - hours * 3600))) := by
    simp [load_analytics_data] at hout
    exact hout.symm
  constructor
  · intro hc r hr hmem
    rw [hdef] at hmem
    have hmem' : r ∈ (lines.filterMap id).filter (keepRecord (now - hours * 3600)) :=
      (List.perm_insertionSort tsLE _).mem_iff.mp hmem
    have hk := List.of_mem_filter hmem'
    rw [keepRecord] at hk
    have hk' : now - hours * 3600 ≤ r.tsOrZero := of_decide_eq_true hk
    rw [Record.tsOrZero, hr] at hk'
    simp at hk'
    linarith
  · intro i j hi hj
    have hs : out.Sorted tsLE := by
      rw [hdef]
      exact List.sorted_insertionSort tsLE _
    by_contra hij
    push_neg at hij
    have h0 : (out.get i).tsOrZero = 0 := by
      rw [Record.tsOrZero, hi]
      rfl
    rcases eq_or_lt_of_le hij with he | hlt
    · have : j = i := Fin.ext he
      subst this
      rw [h0] at hj
      exact lt_irrefl 0 hj
    · have hrel : tsLE (out.get j) (out.get i) := hs.rel_get_of_lt hlt
      rw [tsLE, h0] at hrel
      linarith

/-- C9 witness. -/
theorem load_no_timestamp_wit :
    (⟨none, "x", []⟩ : Record) ∉ ([] : List Record) ∧ (0 : ℕ) < 1 := by
  constructor
  · refine (load_no_timestamp [some ⟨none, "x", []⟩] 7200 1 [] ?_).1 (by norm_num)
      ⟨none, "x", []⟩ rfl
    have hk : keepRecord (7200 - 3600) ⟨none, "x", []⟩ = false := by
      simp [keepRecord, Record.tsOrZero]
      norm_num
    simp [load_analytics_data, List.filterMap, List.filter, hk, sortByTs]
  · have hload : load_analytics_data
        (.content [some ⟨none, "x", []⟩, some ⟨some 5, "y", []⟩]) 0 1
        = .ok [⟨none, "x", []⟩, ⟨some 5, "y", []⟩] := by
      have h₁ : keepRecord (0 - 3600) ⟨none, "x", []⟩ = true := by
        simp [keepRecord, Record.tsOrZero]
      have h₂ : keepRecord (0 - 3600) ⟨some 5, "y", []⟩ = true := by
        simp [keepRecord, Record.tsOrZero]
        norm_num
      simp [load_analytics_data, List.filterMap, List.filter, h₁, h₂, sortByTs,
        List.orderedInsert, tsLE, Record.tsOrZero]
    exact (load_no_timestamp _ 0 1 _ hload).2 ⟨0, by norm_num⟩ ⟨1, by norm_num⟩
      rfl (by simp [Record.tsOrZero])

/-- C4: in `generate_report`'s summary, more than 3 tps anomalies force
status "critical" regardless of the other conditions; otherwise current
tps (default 20 when absent) below 18 or current memory above 3000 gives
"warning"; with none of these, "healthy". -/
theorem summary_status_classification (perf : Option PerfReport) :
    (3 < (tpsAnomaliesOf perf).length → (generate_summary perf).status = "critical") ∧
      ((tpsAnomaliesOf perf).length ≤ 3 →
        ((tpsCurrentOf perf < 18 ∨ 3000 < memCurrentOf perf) →
          (generate_summary perf).status = "warning") ∧
        (¬ tpsCurrentOf perf < 18 → ¬ 3000 < memCurrentOf perf →
          (generate_summary perf).status = "healthy")) := by
  unfold generate_summary
  constructor
  · intro h4
    split_ifs <;> simp_all
  · intro h3
    constructor
    · intro hw
      rcases hw with hw | hw <;> split_ifs <;> simp_all <;> omega
    · intro ht hm
      split_ifs <;> simp_all <;> omega

/-- C4 witness. -/
theorem summary_status_classification_wit :
    (generate_summary none).status = "healthy" ∧
      (generate_summary (some
        { tps := ⟨⟨"stable", 0, 0, none⟩,
            [⟨some 0, "", 30, 4, "high"⟩, ⟨some 1, "", 30, 4, "high"⟩,
              ⟨some 2, "", 30, 4, "high"⟩, ⟨some 3, "", 30, 4, "high"⟩], none, 20, 20⟩
          cpu := ⟨⟨"stable", 0, 0, none⟩, [], none, 50, 50⟩
          memory := ⟨⟨"stable", 0, 0, none⟩, [], none, 1000, 1000⟩ })).status
        = "critical" ∧
      (generate_summary (some
        { tps := ⟨⟨"stable", 0, 0, none⟩, [], none, 15, 15⟩
          cpu := ⟨⟨"stable", 0, 0, none⟩, [], none, 50, 50⟩
          memory := ⟨⟨"stable", 0, 0, none⟩, [], none, 1000, 1000⟩ })).status
        = "warning" := by
  refine ⟨?_, ?_, ?_⟩
  · exact ((summary_status_classification none).2 (by simp [tpsAnomaliesOf])).2
      (by simp [tpsCurrentOf]; norm_num) (by simp [memCurrentOf])
  · exact (summary_status_classification _).1 (by simp [tpsAnomaliesOf])
  · exact ((summary_status_classification _).2 (by simp [tpsAnomaliesOf])).1
      (Or.inl (by simp [tpsCurrentOf]; norm_num))

/-- C1 counterexample: the strictly increasing extracted sequence
`[1, 1.001]` has slope `0.001`, inside the ±0.01 dead-band, so
`calculate_trends` reports direction "stable", not "increasing". -/
theorem trend_deadband_cex :
    extractValues [⟨some 0, "", [("v", 1)]⟩, ⟨some 1, "", [("v", 1001/1000)]⟩] "v"
        = [1, 1001/1000] ∧
      ((1 : ℚ) < 1001/1000) ∧
      (calculate_trends [⟨some 0, "", [("v", 1)]⟩, ⟨some 1, "", [("v", 1001/1000)]⟩]
          "v").direction = "stable" := by
  refine ⟨by simp [extractValues, Record.getVal], by norm_num, ?_⟩
  simp [calculate_trends, extractValues, Record.getVal, olsSlope, List.range_succ]
  norm_num

/-- C1 amended: for a strictly increasing extracted sequence of length ≥2
with positive first value, the least-squares slope is strictly positive
and the unrounded change percentage is strictly positive; the returned
(rounded) `change_percent` is nonnegative, and the direction is
"increasing" precisely when the slope clears the `0.01` dead-band.
Symmetrically for strictly decreasing sequences (slope negative, raw
change negative, returned `change_percent` nonpositive, direction
"decreasing" when the slope is below `-0.01`). -/
theorem trend_strict_mono_amended (data : List Record) (key : String) :
    (2 ≤ (extractValues data key).length →
      (extractValues data key).Sorted (· < ·) →
      0 < (extractValues data key).getD 0 0 →
      0 < olsSlope (extractValues data key) ∧
      0 < rawChangePercent (extractValues data key) ∧
      0 ≤ (calculate_trends data key).changePercent ∧
      (0.01 < olsSlope (extractValues data key) →
        (calculate_trends data key).direction = "increasing")) ∧
      (2 ≤ (extractValues data key).length →
        (extractValues data key).Sorted (· > ·) →
        0 < (extractValues data key).getD 0 0 →
        olsSlope (extractValues data key) < 0 ∧
        rawChangePercent (extractValues data key) < 0 ∧
        (calculate_trends data key).changePercent ≤ 0 ∧
        (olsSlope (extractValues data key) < -0.01 →
          (calculate_trends data key).direction = "decreasing")) := by
  constructor
  · intro h2 hsort hfirst
    have h2d : 2 ≤ data.length := by
      rw [← extractValues_length data key]
      exact h2
    have hnz : ¬ ∀ v ∈ extractValues data key, v = 0 := by
      intro hall
      have hmem := getD_mem (extractValues data key) 0 (by omega)
      have := hall _ hmem
      linarith
    have hmono := sorted_lt_getD _ hsort
    have hslope := olsSlope_pos _ h2 hmono
    have hlast : (extractValues data key).getD 0 0
        < (extractValues data key).getD ((extractValues data key).length - 1) 0 :=
      hmono 0 _ (by omega) (by omega)
    have hraw : 0 < rawChangePercent (extractValues data key) := by
      unfold rawChangePercent
      rw [if_pos (ne_of_gt hfirst)]
      have := div_pos (sub_pos.mpr hlast) hfirst
      nlinarith
    refine ⟨hslope, hraw, ?_, ?_⟩
    · rw [calculate_trends_main data key h2d hnz]
      exact round2_nonneg _ hraw.le
    · intro hband
      rw [calculate_trends_main data key h2d hnz]
      show (if 0.01 < olsSlope (extractValues data key) then "increasing"
        else if olsSlope (extractValues data key) < -0.01 then "decreasing"
        else "stable") = "increasing"
      rw [if_pos hband]
  · intro h2 hsort hfirst
    have h2d : 2 ≤ data.length := by
      rw [← extractValues_length data key]
      exact h2
    have hnz : ¬ ∀ v ∈ extractValues data key, v = 0 := by
      intro hall
      have hmem := getD_mem (extractValues data key) 0 (by omega)
      have := hall _ hmem
      linarith
    have hmono := sorted_gt_getD _ hsort
    have hslope := olsSlope_neg _ h2 hmono
    have hlast : (extractValues data key).getD ((extractValues data key).length - 1) 0
        < (extractValues data key).getD 0 0 :=
      hmono 0 _ (by omega) (by omega)
    have hraw : rawChangePercent (extractValues data key) < 0 := by
      unfold rawChangePercent
      rw [if_pos (ne_of_gt hfirst)]
      have := div_neg_of_neg_of_pos (sub_neg.mpr hlast) hfirst
      nlinarith
    refine ⟨hslope, hraw, ?_, ?_⟩
    · rw [calculate_trends_main data key h2d hnz]
      exact round2_nonpos _ hraw.le
    · intro hband
      rw [calculate_trends_main data key h2d hnz]
      show (if 0.01 < olsSlope (extractValues data key) then "increasing"
        else if olsSlope (extractValues data key) < -0.01 then "decreasing"
        else "stable") = "decreasing"
      rw [if_neg (by norm_num; nlinarith), if_pos hband]

/-- C1 witness. -/
theorem trend_strict_mono_amended_wit :
    (calculate_trends
        [⟨some 0, "", [("v", 1)]⟩, ⟨some 1, "", [("v", 2)]⟩, ⟨some 2, "", [("v", 3)]⟩]
        "v").direction = "increasing" ∧
      (calculate_trends
        [⟨some 0, "", [("v", 3)]⟩, ⟨some 1, "", [("v", 2)]⟩, ⟨some 2, "", [("v", 1)]⟩]
        "v").direction = "decreasing" := by
  have he₁ : extractValues
      [⟨some 0, "", [("v", 1)]⟩, ⟨some 1, "", [("v", 2)]⟩, ⟨some 2, "", [("v", 3)]⟩] "v"
      = [1, 2, 3] := by simp [extractValues, Record.getVal]
  have he₂ : extractValues
      [⟨some 0, "", [("v", 3)]⟩, ⟨some 1, "", [("v", 2)]⟩, ⟨some 2, "", [("v", 1)]⟩] "v"
      = [3, 2, 1] := by simp [extractValues, Record.getVal]
  have hs₁ : olsSlope [1, 2, 3] = 1 := by
    simp [olsSlope, List.range_succ]
    norm_num
  have hs₂ : olsSlope [3, 2, 1] = -1 := by
    simp [olsSlope, List.range_succ]
    norm_num
  constructor
  · refine ((trend_strict_mono_amended _ "v").1 ?_ ?_ ?_).2.2.2 ?_ <;> rw [he₁]
    · norm_num
    · simp [List.sorted_cons]
      norm_num
    · norm_num
    · rw [hs₁]
      norm_num
  · refine ((trend_strict_mono_amended _ "v").2 ?_ ?_ ?_).2.2.2 ?_ <;> rw [he₂]
    · norm_num
    · simp [List.sorted_cons]
      norm_num
    · norm_num
    · rw [hs₂]
      norm_num

end Analytics
